import Mathlib

/-
Verification of the image batch-processing pipeline (collection, content-hash
deduplication, capture-date resolution, collision-free target allocation and
sequential renaming).

The development shallowly embeds the three Python variants of the pipeline:
  * `Processor.*`    — the class `ImageProcessor` in `images_processor.py`
  * `ReconProcessor.*` — the class in `reconstruct_process/images_processor.py`
  * `MergeRename.*`  — the script `reconstruct_process/image_merge_and_rename.py`

The file system is modelled as an association list from path strings to file
records.  A file record carries the byte content, the outcome of reading the
embedded EXIF metadata block (absent / corrupt / a parsed date), and the
last-modified timestamp.  The MD5 digest of `hashlib` is abstracted as an
explicit parameter `md5 : List Nat → Nat`; the pipeline only ever compares
digests of byte contents for equality.  `shutil.copy2` copies the whole
record (it preserves the modification time), `os.rename` moves a record and
silently replaces an existing destination (POSIX semantics); either fails
when the source is absent or the destination is in the `unw` (unwritable)
set, which models permission / disk-full errors.
-/

namespace ImageBatch

/-! ### Characters, digits, decimal numerals -/

/-- ASCII decimal digit test; models the `\d` regex class on the ASCII
filenames this pipeline manipulates. -/
def isDigitChar (c : Char) : Bool := 48 ≤ c.toNat && c.toNat ≤ 57

/-- Numeric value of an ASCII digit character. -/
def digitVal (c : Char) : Nat := c.toNat - 48

/-- ASCII alphanumeric test, the `[a-zA-Z0-9]` class of `_is_random_name`. -/
def isAsciiAlnum (c : Char) : Bool :=
  (97 ≤ c.toNat && c.toNat ≤ 122) || (65 ≤ c.toNat && c.toNat ≤ 90) ||
    (48 ≤ c.toNat && c.toNat ≤ 57)

/-- ASCII lower-casing of one character, as `str.lower` acts on the ASCII
extension sets compared by `_is_image_file`. -/
def lowerChar (c : Char) : Char :=
  if 65 ≤ c.toNat && c.toNat ≤ 90 then Char.ofNat (c.toNat + 32) else c

/-- The decimal digit character for a value below ten. -/
def digitChar (n : Nat) : Char :=
  if n = 0 then '0' else if n = 1 then '1' else if n = 2 then '2'
  else if n = 3 then '3' else if n = 4 then '4' else if n = 5 then '5'
  else if n = 6 then '6' else if n = 7 then '7' else if n = 8 then '8' else '9'

/-- Fuelled most-significant-first decimal digit list of a natural number;
the fuel is only there to keep the recursion structural, `natToChars`
always supplies enough. -/
def natDigitsAux : Nat → Nat → List Char
  | 0, _ => []
  | fuel + 1, n =>
    if n < 10 then [digitChar n] else natDigitsAux fuel (n / 10) ++ [digitChar (n % 10)]

/-- Decimal digit characters of `n`, most significant first: `str(n)`. -/
def natToChars (n : Nat) : List Char := natDigitsAux (n + 1) n

/-- Decimal rendering of `n`, as Python `str` / `f"{n}"` produces it. -/
def natToStr (n : Nat) : String := String.mk (natToChars n)

/-- Evaluation of a most-significant-first digit character list. -/
def digitsToNat (ds : List Char) : Nat := ds.foldl (fun a c => 10 * a + digitVal c) 0

/-! ### Strings and paths -/

/-- Left-zero-padding to a given width, the `%02d` / `%04d` / `{:04d}`
format primitive. -/
def padZeros (w : Nat) (cs : List Char) : List Char :=
  List.replicate (w - cs.length) '0' ++ cs

/-- Python `f"{n:04d}"`. -/
def padNat4 (n : Nat) : String := String.mk (padZeros 4 (natToChars n))

/-- `os.path.join(dir, name)` for a directory path without trailing
separator, as this code base always calls it. -/
def pathJoin (dir name : String) : String := dir ++ "/" ++ name

/-- Characters after the last `/`, i.e. `os.path.basename`. -/
def afterLastSlash (cs : List Char) : List Char :=
  cs.foldl (fun acc c => if c = '/' then [] else acc ++ [c]) []

/-- `os.path.basename`. -/
def basename (p : String) : String := String.mk (afterLastSlash p.data)

/-- Splits a character list at its last dot, returning the part before the
dot and the part from the dot on; `none` when there is no dot. -/
def splitAtLastDot : List Char → Option (List Char × List Char)
  | [] => none
  | c :: rest =>
    match splitAtLastDot rest with
    | some (p, e) => some (c :: p, e)
    | none => if c = '.' then some ([], c :: rest) else none

/-- `os.path.splitext` on a bare file name (no directory part): split at the
last dot unless every character before that dot is itself a dot, in which
case the whole name is the stem (so a leading-dot name like `.jpg` keeps
its dot in the stem and has no extension). -/
def splitextData (cs : List Char) : List Char × List Char :=
  match splitAtLastDot cs with
  | some (p, e) => if p.any (fun c => !(c == '.')) then (p, e) else (cs, [])
  | none => (cs, [])

/-- `os.path.splitext` on strings. -/
def splitext (s : String) : String × String :=
  ((String.mk (splitextData s.data).1), (String.mk (splitextData s.data).2))

/-- The recognised image extensions of `_is_image_file` and of the two
script variants. -/
def imageExtensions : List String := [".jpg", ".jpeg", ".png", ".gif", ".bmp"]

/-- `file.lower().endswith(image_extensions)`: the walker's extension
filter. -/
def isImageFile (file : String) : Bool :=
  imageExtensions.any (fun e => e.data.isSuffixOf (file.data.map lowerChar))

/-! ### Timestamps and the calendar of `datetime` -/

/-- A `datetime.datetime` value, to second precision (the pipeline never
uses sub-second fields). -/
structure DateTime where
  year : Nat
  month : Nat
  day : Nat
  hour : Nat
  minute : Nat
  second : Nat
deriving DecidableEq, Repr

/-- Outcome of reading the embedded EXIF metadata of an image file:
no usable tag, a block whose reading/parsing raises, or a successfully
parsed `DateTime` tag.  This abstracts the `PIL.Image` / `piexif` calls,
which are library code outside this repository. -/
inductive ExifInfo where
  | absent : ExifInfo
  | corrupt : ExifInfo
  | date : DateTime → ExifInfo
deriving DecidableEq, Repr

/-- One file of the modelled file system. -/
structure FileMeta where
  content : List Nat
  exif : ExifInfo
  mtime : DateTime
deriving DecidableEq, Repr

/-- The file system: an association list from absolute path to file. -/
abbrev FS := List (String × FileMeta)

def fsFind : FS → String → Option FileMeta
  | [], _ => none
  | (q, m) :: rest, p => if q = p then some m else fsFind rest p

/-- `os.path.exists`. -/
def fsHas (fs : FS) (p : String) : Bool := (fsFind fs p).isSome

/-- Write (create or replace) one path. -/
def fsSet : FS → String → FileMeta → FS
  | [], p, m => [(p, m)]
  | (q, m') :: rest, p, m =>
    if q = p then (q, m) :: rest else (q, m') :: fsSet rest p m

/-- Remove one path. -/
def fsDel : FS → String → FS
  | [], _ => []
  | (q, m) :: rest, p => if q = p then fsDel rest p else (q, m) :: fsDel rest p

/-- `shutil.copy2`: read the source record and write it (content and
modification time both travel) to the destination.  Fails when the source
is absent or the destination path is unwritable. -/
def copy2 (unw : List String) (fs : FS) (src dst : String) : Option FS :=
  match fsFind fs src with
  | none => none
  | some m => if dst ∈ unw then none else some (fsSet fs dst m)

/-- `os.rename` with POSIX semantics: move the source record to the
destination, silently replacing an existing destination file.  Fails when
the source is absent or the destination path is unwritable. -/
def osRename (unw : List String) (fs : FS) (src dst : String) : Option FS :=
  match fsFind fs src with
  | none => none
  | some m => if dst ∈ unw then none else some (fsSet (fsDel fs src) dst m)

/-! ### Comparing timestamps -/

/-- The six components, in comparison order. -/
def dtKey (d : DateTime) : List Nat :=
  [d.year, d.month, d.day, d.hour, d.minute, d.second]

/-- Lexicographic comparison of equal-length numeric keys, the order in
which `datetime` objects compare and therefore the order `list.sort`
uses. -/
def lexLe : List Nat → List Nat → Bool
  | [], _ => true
  | _ :: _, [] => false
  | a :: as, b :: bs => if a < b then true else if b < a then false else lexLe as bs

def dtLeB (a b : DateTime) : Bool := lexLe (dtKey a) (dtKey b)

/-! ### The calendar validation performed by the `datetime` constructor -/

def isLeapYear (y : Nat) : Bool := y % 4 == 0 && (y % 100 != 0 || y % 400 == 0)

def daysInMonth (y m : Nat) : Nat :=
  if m = 2 then (if isLeapYear y then 29 else 28)
  else if m = 4 ∨ m = 6 ∨ m = 9 ∨ m = 11 then 30
  else 31

/-- `datetime.datetime(y, mo, d, h, mi, s)`: `some` when the constructor
accepts the sextuple, `none` when it raises `ValueError`. -/
def mkValidDatetime (y mo d h mi s : Nat) : Option DateTime :=
  if 1 ≤ y ∧ y ≤ 9999 ∧ 1 ≤ mo ∧ mo ≤ 12 ∧ 1 ≤ d ∧ d ≤ daysInMonth y mo ∧
      h ≤ 23 ∧ mi ≤ 59 ∧ s ≤ 59
  then some ⟨y, mo, d, h, mi, s⟩ else none

/-! ### The two regular expressions of the date resolver and renamer

`re.search(r"(\d{4})[-_]?(\d{2})[-_]?(\d{2})[-_]?(\d{2})[-_]?(\d{2})[-_]?(\d{2})", name)`
and `re.search(r"\d{8}_\d{6}", name)`.  Both are implemented as leftmost
scanners; inside one start position the optional `[-_]?` separator is
deterministic (consuming it is viable exactly when the next character is a
separator, because the following atom requires a digit), so no further
backtracking arises. -/

/-- Parse exactly `n` digit characters into their numeric value
(the effect of `int` on a fixed-width `\d{n}` group). -/
def takeDigits : Nat → Nat → List Char → Option (Nat × List Char)
  | 0, acc, cs => some (acc, cs)
  | n + 1, acc, cs =>
    match cs with
    | [] => none
    | c :: rest =>
      if isDigitChar c then takeDigits n (10 * acc + digitVal c) rest else none

/-- The optional `[-_]?` separator. -/
def dropSep : List Char → List Char
  | [] => []
  | c :: rest => if c = '-' ∨ c = '_' then rest else c :: rest

/-- Attempt the six-group date pattern at one start position. -/
def matchDateAt (cs : List Char) : Option (Nat × Nat × Nat × Nat × Nat × Nat) :=
  match takeDigits 4 0 cs with
  | none => none
  | some (y, r1) =>
  match takeDigits 2 0 (dropSep r1) with
  | none => none
  | some (mo, r2) =>
  match takeDigits 2 0 (dropSep r2) with
  | none => none
  | some (d, r3) =>
  match takeDigits 2 0 (dropSep r3) with
  | none => none
  | some (h, r4) =>
  match takeDigits 2 0 (dropSep r4) with
  | none => none
  | some (mi, r5) =>
  match takeDigits 2 0 (dropSep r5) with
  | none => none
  | some (s, _) => some (y, mo, d, h, mi, s)

/-- `re.search` of the date pattern: leftmost match. -/
def searchDate : List Char → Option (Nat × Nat × Nat × Nat × Nat × Nat)
  | [] => none
  | c :: rest =>
    match matchDateAt (c :: rest) with
    | some r => some r
    | none => searchDate rest

/-- The filename fallback shared verbatim by all three variants: one
`re.search` of the date pattern, then one `datetime` construction whose
`ValueError` is swallowed.  (The script variant additionally pre-checks
month and day ranges before calling `datetime`; since `datetime` itself
rejects exactly those and more, the composed `Option` behaviour is
identical.) -/
def filenameDate (name : String) : Option DateTime :=
  match searchDate name.data with
  | none => none
  | some (y, mo, d, h, mi, s) => mkValidDatetime y mo d h mi s

/-- Take exactly `n` digit characters, keeping them. -/
def takeDigitChars : Nat → List Char → Option (List Char × List Char)
  | 0, cs => some ([], cs)
  | _ + 1, [] => none
  | n + 1, c :: rest =>
    if isDigitChar c then
      match takeDigitChars n rest with
      | none => none
      | some (ds, r) => some (c :: ds, r)
    else none

/-- Attempt `\d{8}_\d{6}` at one start position, returning the matched
characters. -/
def matchTimeAt (cs : List Char) : Option (List Char) :=
  match takeDigitChars 8 cs with
  | none => none
  | some (d8, r) =>
    match r with
    | [] => none
    | c :: r2 =>
      if c = '_' then
        match takeDigitChars 6 r2 with
        | none => none
        | some (d6, _) => some (d8 ++ '_' :: d6)
      else none

/-- `re.search(r"\d{8}_\d{6}", name)`: leftmost match. -/
def searchTime : List Char → Option (List Char)
  | [] => none
  | c :: rest =>
    match matchTimeAt (c :: rest) with
    | some r => some r
    | none => searchTime rest

/-- `date.strftime("%Y%m%d_%H%M%S")`. -/
def strftimeYmdHms (d : DateTime) : String :=
  String.mk (padZeros 4 (natToChars d.year) ++ padZeros 2 (natToChars d.month) ++
    padZeros 2 (natToChars d.day) ++ '_' ::
    (padZeros 2 (natToChars d.hour) ++ padZeros 2 (natToChars d.minute) ++
      padZeros 2 (natToChars d.second)))

/-! ### Capture-date resolution -/

/-- The date the EXIF block yields, when it exists and parses. -/
def exifInfoDate : ExifInfo → Option DateTime
  | .date d => some d
  | _ => none

/-- `_get_image_date` of `images_processor.py` (and `get_image_date` of the
reconstructed class): EXIF first, then the filename pattern, then the
modification time.  Every exception of the EXIF step — including the one
raised when the file does not exist — is swallowed; the terminal
`os.path.getmtime` raises for a missing file, so the result is `none`
exactly when the file is absent and its name carries no valid date. -/
def dateExifFirst (fs : FS) (file_path : String) : Option DateTime :=
  let ex : Option DateTime :=
    match fsFind fs file_path with
    | some m => exifInfoDate m.exif
    | none => none
  match ex with
  | some d => some d
  | none =>
    match filenameDate (basename file_path) with
    | some d => some d
    | none => (fsFind fs file_path).map (fun m => m.mtime)

/-- `get_image_date` of `image_merge_and_rename.py`: the filename pattern
first, then EXIF, then the modification time. -/
def dateNameFirst (fs : FS) (file_path : String) : Option DateTime :=
  match filenameDate (basename file_path) with
  | some d => some d
  | none =>
    match (match fsFind fs file_path with
           | some m => exifInfoDate m.exif
           | none => none) with
    | some d => some d
    | none => (fsFind fs file_path).map (fun m => m.mtime)

/-- `_get_time_string`: re-extract a `\d{8}_\d{6}` group from the current
file name, else format the resolved date. -/
def get_time_string (file_name : String) (date : DateTime) : String :=
  match searchTime file_name.data with
  | some cs => String.mk cs
  | none => strftimeYmdHms date

/-! ### The opaque-name heuristic `_is_random_name`

`re.match(r"^[a-zA-Z0-9]+$", stem)`: anchored at the start; without
`re.MULTILINE` the `$` matches at the end of the string or just before a
single newline that ends the string. -/

/-- Continuation of `[a-zA-Z0-9]+$` after at least one alphanumeric
character has been consumed. -/
def alnumRunDollar : List Char → Bool
  | [] => true
  | [c] => c = '\n' || isAsciiAlnum c
  | c :: r :: rs => isAsciiAlnum c && alnumRunDollar (r :: rs)

/-- Whether `re.match(r"^[a-zA-Z0-9]+$", ·)` succeeds. -/
def reMatchAlnumDollar (cs : List Char) : Bool :=
  match cs with
  | [] => false
  | c :: rest => isAsciiAlnum c && alnumRunDollar rest

/-! ### The Target Path Allocator -/

/-- The candidate `os.path.join(target, f"{name}_{counter}{ext}")`. -/
def mkCandidate (dir stem ext : String) (k : Nat) : String :=
  pathJoin dir (stem ++ "_" ++ natToStr k ++ ext)

/-- The `while os.path.exists(target_path)` loop, fuelled; `fs.length + 1`
fuel always suffices (`allocLoop_not_mem` below), so the fuelled recursion
is an exact model of the source's unbounded loop. -/
def allocLoop (fs : FS) (dir stem ext : String) : Nat → Nat → String
  | 0, k => mkCandidate dir stem ext k
  | fuel + 1, k =>
    let c := mkCandidate dir stem ext k
    if fsHas fs c then allocLoop fs dir stem ext fuel (k + 1) else c

/-- `_get_unique_target_path` of the class, and the identical inline
while loops of both script variants: try the plain name, then
`name_1`, `name_2`, … until a free path is found. -/
def get_unique_target_path (fs : FS) (target_folder file : String) : String :=
  let p0 := pathJoin target_folder file
  if fsHas fs p0 then
    allocLoop fs target_folder (splitext file).1 (splitext file).2 (fs.length + 1) 1
  else p0

/-! ### The rename pass -/

/-- Stable insertion: a new element goes before the first list element
strictly greater than it, hence after all earlier elements of equal
date. -/
def insertByDate (x : String × DateTime) :
    List (String × DateTime) → List (String × DateTime)
  | [] => [x]
  | y :: ys => if dtLeB x.2 y.2 then x :: y :: ys else y :: insertByDate x ys

/-- `image_dates.sort(key=lambda x: x[1])`.  Python's Timsort is a stable
ascending sort; a stable sort of a list under a total transitive comparison
is unique, so stable insertion sort is an exact model. -/
def sortByDate : List (String × DateTime) → List (String × DateTime)
  | [] => []
  | x :: xs => insertByDate x (sortByDate xs)

/-- `f"{index:04d}_{time_str}{file_extension}"` where the extension is
taken from the record's current (old) name. -/
def newNameFor (idx : Nat) (old_name : String) (date : DateTime) : String :=
  padNat4 idx ++ "_" ++ get_time_string old_name date ++ (splitext old_name).2

/-- The `(old_path, new_path)` moves that the rename loop performs, with a
1-based dense sequence starting at `idx`. -/
def renamePlanFrom (target_folder : String) :
    Nat → List (String × DateTime) → List (String × String)
  | _, [] => []
  | idx, (old_path, date) :: rest =>
    (old_path, pathJoin target_folder (newNameFor idx (basename old_path) date)) ::
      renamePlanFrom target_folder (idx + 1) rest

/-- Execute moves sequentially, stopping at the first failure (the
exception-raising rename loop of the class variant). -/
def applyMoves (unw : List String) : FS → List (String × String) → FS × Bool
  | fs, [] => (fs, false)
  | fs, (src, dst) :: rest =>
    match osRename unw fs src dst with
    | none => (fs, true)
    | some fs' => applyMoves unw fs' rest

/-- The rename loop of `images_processor.py`'s `_rename_images`: a failing
`os.rename` raises `ImageRenameError`, which nothing in the pipeline
catches, so the pass stops there. -/
def renameLoopAbort (unw : List String) (target_folder : String) :
    FS → Nat → List (String × DateTime) → FS × Bool
  | fs, _, [] => (fs, false)
  | fs, idx, (old_path, date) :: rest =>
    let new_path := pathJoin target_folder (newNameFor idx (basename old_path) date)
    match osRename unw fs old_path new_path with
    | none => (fs, true)
    | some fs' => renameLoopAbort unw target_folder fs' (idx + 1) rest

/-- The rename loop of both script variants: a failing `os.rename` is
caught, reported (the returned list of old paths), and the loop
continues with the next record. -/
def renameLoopSkip (unw : List String) (target_folder : String) :
    FS → Nat → List (String × DateTime) → FS × List String
  | fs, _, [] => (fs, [])
  | fs, idx, (old_path, date) :: rest =>
    let new_path := pathJoin target_folder (newNameFor idx (basename old_path) date)
    match osRename unw fs old_path new_path with
    | none =>
      let r := renameLoopSkip unw target_folder fs (idx + 1) rest
      (r.1, old_path :: r.2)
    | some fs' => renameLoopSkip unw target_folder fs' (idx + 1) rest

/-- Date resolution for every collected record where a resolver failure
(possible only for a missing file) propagates, as in the two class
variants' rename passes. -/
def datesOfAbort (fs : FS) : List String → Option (List (String × DateTime))
  | [] => some []
  | f :: rest =>
    match dateExifFirst fs f with
    | none => none
    | some d =>
      match datesOfAbort fs rest with
      | none => none
      | some t => some ((f, d) :: t)

/-- Date resolution of `image_merge_and_rename.py`'s rename pass: a
resolver failure is caught and the record is dropped from the pass. -/
def datesOfSkip (fs : FS) (files : List String) : List (String × DateTime) :=
  files.filterMap (fun f => (dateNameFirst fs f).map (fun d => (f, d)))

/-! ### Collection / deduplication -/

/-- State threaded through a collection run: the file system, the
in-memory `hash_dict` fingerprint index, the `collected_images` list, the
reported per-file errors, and whether an uncaught exception has ended the
run. -/
structure CState where
  fs : FS
  hash_dict : List (Nat × String)
  collected : List String
  errors : List String
  aborted : Bool
deriving DecidableEq, Repr

def dictFind : List (Nat × String) → Nat → Option String
  | [], _ => none
  | (h, p) :: rest, k => if h = k then some p else dictFind rest k

/-- Every run starts with an empty index and an empty collected list; no
entity persists across runs. -/
def initCState (fs0 : FS) : CState :=
  { fs := fs0, hash_dict := [], collected := [], errors := [], aborted := false }

namespace MergeRename

/-- `get_image_date` of `image_merge_and_rename.py`. -/
def get_image_date (fs : FS) (file_path : String) : Option DateTime :=
  dateNameFirst fs file_path

/-- The body of `collect_and_duplicate_images` for one walked `(root,
file)` entry.  `get_file_hash` and `shutil.copy2` are not guarded here, so
either failure aborts the run. -/
def collect_step (md5 : List Nat → Nat) (unw : List String) (target_folder : String)
    (st : CState) (entry : String × String) : CState :=
  if st.aborted then st
  else if isImageFile entry.2 then
    let source_path := pathJoin entry.1 entry.2
    match fsFind st.fs source_path with
    | none => { st with aborted := true }
    | some m =>
      let file_hash := md5 m.content
      match dictFind st.hash_dict file_hash with
      | some _ => st
      | none =>
        let target_path := get_unique_target_path st.fs target_folder entry.2
        match copy2 unw st.fs source_path target_path with
        | none => { st with aborted := true }
        | some fs' =>
          { st with
            fs := fs'
            collected := st.collected ++ [target_path]
            hash_dict := (file_hash, target_path) :: st.hash_dict }
  else st

/-- `collect_and_duplicate_images` over the `os.walk` enumeration of all
source folders, given as the list of `(root, file)` pairs in walk order. -/
def collect_and_duplicate_images (md5 : List Nat → Nat) (unw : List String)
    (target_folder : String) (walked : List (String × String)) (fs0 : FS) : CState :=
  walked.foldl (collect_step md5 unw target_folder) (initCState fs0)

/-- `rename_images` of the script: resolver failures drop the record,
rename failures are reported and skipped. -/
def rename_images (unw : List String) (target_folder : String) (fs : FS)
    (image_files : List String) : FS × List String :=
  renameLoopSkip unw target_folder fs 1 (sortByDate (datesOfSkip fs image_files))

/-- `main` of the script: collect, then rename the collected files. -/
def main_run (md5 : List Nat → Nat) (unw : List String) (target_folder : String)
    (walked : List (String × String)) (fs0 : FS) : FS × List String :=
  let st := collect_and_duplicate_images md5 unw target_folder walked fs0
  rename_images unw target_folder st.fs st.collected

end MergeRename

namespace ReconProcessor

/-- `get_image_date` of `reconstruct_process/images_processor.py`. -/
def get_image_date (fs : FS) (file_path : String) : Option DateTime :=
  dateExifFirst fs file_path

/-- The body of `collect_and_deduplicate_images` for one walked entry: a
hash failure is printed and the file skipped; a copy failure is printed
and the file skipped, leaving `collected_images` and `hash_dict`
untouched. -/
def collect_step (md5 : List Nat → Nat) (unw : List String) (target_folder : String)
    (st : CState) (entry : String × String) : CState :=
  if isImageFile entry.2 then
    let source_path := pathJoin entry.1 entry.2
    match fsFind st.fs source_path with
    | none => { st with errors := st.errors ++ [source_path] }
    | some m =>
      let file_hash := md5 m.content
      match dictFind st.hash_dict file_hash with
      | some _ => st
      | none =>
        let target_path := get_unique_target_path st.fs target_folder entry.2
        match copy2 unw st.fs source_path target_path with
        | none => { st with errors := st.errors ++ [source_path] }
        | some fs' =>
          { st with
            fs := fs'
            collected := st.collected ++ [target_path]
            hash_dict := (file_hash, target_path) :: st.hash_dict }
  else st

/-- `collect_and_deduplicate_images` of the reconstructed class. -/
def collect_and_deduplicate_images (md5 : List Nat → Nat) (unw : List String)
    (target_folder : String) (walked : List (String × String)) (fs0 : FS) : CState :=
  walked.foldl (collect_step md5 unw target_folder) (initCState fs0)

/-- `rename_images` of the reconstructed class: date resolution is not
guarded (a failure aborts), individual rename failures are printed and
skipped. -/
def rename_images (unw : List String) (target_folder : String) (fs : FS)
    (image_files : List String) : FS × List String × Bool :=
  match datesOfAbort fs image_files with
  | none => (fs, [], true)
  | some dated =>
    let r := renameLoopSkip unw target_folder fs 1 (sortByDate dated)
    (r.1, r.2, false)

end ReconProcessor

namespace Processor

/-- `ImageProcessor._get_image_date`. -/
def get_image_date (fs : FS) (file_path : String) : Option DateTime :=
  dateExifFirst fs file_path

/-- `ImageProcessor._get_file_hash`: the streamed MD5 digest of the file's
bytes; fails (raising `HashCalculationError`) when the file cannot be
read. -/
def get_file_hash (md5 : List Nat → Nat) (fs : FS) (file_path : String) : Option Nat :=
  (fsFind fs file_path).map (fun m => md5 m.content)

/-- `ImageProcessor._is_random_name`. -/
def is_random_name (file_name : String) : Bool :=
  reMatchAlnumDollar (splitextData file_name.data).1

/-- `ImageProcessor.add_prefix_to_image`: renames (moves!) `file_path` to
`target_folder/<pfx>_<basename>` with no existence check on the
destination, and returns the new path. -/
def add_prefix_to_image (unw : List String) (fs : FS)
    (file_path target_folder pfx : String) : Option (FS × String) :=
  let file_name := basename file_path
  let new_name := pfx ++ "_" ++ file_name
  let new_path := pathJoin target_folder new_name
  match osRename unw fs file_path new_path with
  | none => none
  | some fs' => some (fs', new_path)

/-- `ImageProcessor._copy_unique_image`: allocate a unique target path;
for an opaque (random-looking) name instead move the source into the
target under the marker prefix; then `shutil.copy2` the source to the
chosen path and record it.  The `except ImageCopyError` clause can never
match the `OSError`s `copy2`/`os.rename` raise, so any failure here
propagates and ends the run. -/
def copy_unique_image (unw : List String) (target_folder : String) (st : CState)
    (source_path file : String) (file_hash : Nat) : CState :=
  let tp0 := get_unique_target_path st.fs target_folder file
  let afterPrefix : Option (FS × String) :=
    if is_random_name file then
      add_prefix_to_image unw st.fs source_path target_folder "疑似网图"
    else some (st.fs, tp0)
  match afterPrefix with
  | none => { st with aborted := true }
  | some (fs1, target_path) =>
    match copy2 unw fs1 source_path target_path with
    | none => { st with fs := fs1, aborted := true }
    | some fs2 =>
      { st with
        fs := fs2
        collected := st.collected ++ [target_path]
        hash_dict := (file_hash, target_path) :: st.hash_dict }

/-- `ImageProcessor._process_image_file`: hash the file (logging and
skipping it on failure); when the fingerprint is new, copy it. -/
def process_image_file (md5 : List Nat → Nat) (unw : List String)
    (target_folder : String) (st : CState) (entry : String × String) : CState :=
  if st.aborted then st
  else
    let source_path := pathJoin entry.1 entry.2
    match get_file_hash md5 st.fs source_path with
    | none => { st with errors := st.errors ++ [source_path] }
    | some file_hash =>
      match dictFind st.hash_dict file_hash with
      | some _ => st
      | none => copy_unique_image unw target_folder st source_path entry.2 file_hash

/-- `ImageProcessor._collect_and_deduplicate_images` over the walk
enumeration (non-image files are filtered by `_is_image_file` before
`_process_image_file` is called). -/
def collect_and_deduplicate_images (md5 : List Nat → Nat) (unw : List String)
    (target_folder : String) (walked : List (String × String)) (fs0 : FS) : CState :=
  walked.foldl
    (fun st entry =>
      if isImageFile entry.2 then process_image_file md5 unw target_folder st entry
      else st)
    (initCState fs0)

/-- `ImageProcessor._rename_images`: resolve all dates (a failure
propagates), stable-sort, then rename in sequence; a rename failure
raises `ImageRenameError` and ends the pass. -/
def rename_images (unw : List String) (target_folder : String) (fs : FS)
    (image_files : List String) : FS × Bool :=
  match datesOfAbort fs image_files with
  | none => (fs, true)
  | some dated => renameLoopAbort unw target_folder fs 1 (sortByDate dated)

end Processor

/-! ### Concrete fixtures for witnesses and counterexamples -/

/-- A concrete digest function standing in for MD5 in concrete runs. -/
def md5c : List Nat → Nat := fun c => c.foldl (fun a b => 256 * a + b + 1) 0

def metaPlain : FileMeta :=
  { content := [1], exif := ExifInfo.absent, mtime := ⟨2023, 1, 1, 12, 0, 0⟩ }

def metaExif : FileMeta :=
  { content := [5], exif := ExifInfo.date ⟨2000, 1, 1, 0, 0, 0⟩,
    mtime := ⟨1999, 1, 1, 0, 0, 0⟩ }

def metaB : FileMeta :=
  { content := [2], exif := ExifInfo.absent, mtime := ⟨2020, 5, 5, 5, 5, 5⟩ }

def metaX : FileMeta :=
  { content := [3], exif := ExifInfo.absent, mtime := ⟨2021, 1, 1, 0, 0, 0⟩ }

def metaY : FileMeta :=
  { content := [4], exif := ExifInfo.absent, mtime := ⟨2022, 2, 2, 0, 0, 0⟩ }

/-- One source file with EXIF date and a date-carrying name. -/
def fsC2 : FS := [("s/pic_20230101_120000.jpg", metaExif)]

/-- One plain source file. -/
def fsSingle : FS := [("s/a.jpg", metaPlain)]

def walkedSingle : List (String × String) := [("s", "a.jpg")]

/-- Two byte-identical source files in different subdirectories plus one
distinct file. -/
def fsPair : FS :=
  [("s/a.jpg", metaPlain), ("s/b/a.jpg", metaPlain), ("s/c.jpg", metaB)]

def walkedPair : List (String × String) :=
  [("s", "a.jpg"), ("s/b", "a.jpg"), ("s", "c.jpg")]

/-- One source file with an opaque (purely alphanumeric) base name. -/
def fsOpaque : FS := [("s/abc123.jpg", metaPlain)]

/-- A target already holding the marker-prefixed name that a second
opaque-named source file will map to. -/
def fsPrefixClash : FS := [("t/疑似网图_abc1.jpg", metaB), ("s/abc1.jpg", metaPlain)]

/-- Two copied records awaiting rename. -/
def fsRen : FS := [("t/x.jpg", metaX), ("t/y.jpg", metaY)]

/-- The file system after a complete first run of the script pipeline on
`fsSingle`. -/
def fsAfterRun1 : FS := (MergeRename.main_run md5c [] "t" walkedSingle fsSingle).1

/-! ## Lemmas -/

/-! ### Decimal numerals -/

theorem digitVal_digitChar : ∀ n < 10, digitVal (digitChar n) = n := by decide

theorem digitsToNat_append_digit (ds : List Char) (c : Char) :
    digitsToNat (ds ++ [c]) = 10 * digitsToNat ds + digitVal c := by
  simp [digitsToNat, List.foldl_append]

theorem digitsToNat_natDigitsAux :
    ∀ fuel n, n < fuel → digitsToNat (natDigitsAux fuel n) = n := by
  intro fuel
  induction fuel with
  | zero => intro n hn; omega
  | succ fuel ih =>
    intro n hn
    by_cases h10 : n < 10
    · simp only [natDigitsAux, if_pos h10]
      simpa [digitsToNat] using digitVal_digitChar n h10
    · have hdiv : n / 10 < n := Nat.div_lt_self (by omega) (by omega)
      have hfuel : n / 10 < fuel := by omega
      simp only [natDigitsAux, if_neg h10]
      rw [digitsToNat_append_digit, ih _ hfuel, digitVal_digitChar _ (Nat.mod_lt _ (by omega))]
      omega

theorem digitsToNat_natToChars (n : Nat) : digitsToNat (natToChars n) = n :=
  digitsToNat_natDigitsAux (n + 1) n (Nat.lt_succ_self n)

theorem natToChars_injective : Function.Injective natToChars := by
  intro a b h
  have := congrArg digitsToNat h
  rwa [digitsToNat_natToChars, digitsToNat_natToChars] at this

/-! ### Strings -/

theorem string_data_append (a b : String) : (a ++ b).data = a.data ++ b.data := rfl

theorem string_mk_data (cs : List Char) : (String.mk cs).data = cs := rfl

/-! ### File-system operations -/

theorem fsFind_fsSet_self (fs : FS) (p : String) (m : FileMeta) :
    fsFind (fsSet fs p m) p = some m := by
  induction fs with
  | nil => simp [fsSet, fsFind]
  | cons hd tl ih =>
    obtain ⟨q, m'⟩ := hd
    by_cases h : q = p
    · simp [fsSet, fsFind, h]
    · simp [fsSet, fsFind, h, ih]

theorem fsFind_fsSet_other (fs : FS) (p q : String) (m : FileMeta) (h : q ≠ p) :
    fsFind (fsSet fs p m) q = fsFind fs q := by
  induction fs with
  | nil => simp [fsSet, fsFind, Ne.symm h]
  | cons hd tl ih =>
    obtain ⟨r, m'⟩ := hd
    by_cases hrp : r = p
    · subst hrp
      have hrq : r ≠ q := Ne.symm h
      simp [fsSet, fsFind, hrq]
    · simp only [fsSet, if_neg hrp, fsFind]
      by_cases hrq : r = q
      · simp [hrq]
      · simp [hrq, ih]

theorem fsFind_fsDel_other (fs : FS) (p q : String) (h : q ≠ p) :
    fsFind (fsDel fs p) q = fsFind fs q := by
  induction fs with
  | nil => simp [fsDel]
  | cons hd tl ih =>
    obtain ⟨r, m'⟩ := hd
    by_cases hrp : r = p
    · subst hrp
      have hrq : r ≠ q := Ne.symm h
      simp [fsDel, fsFind, hrq, ih]
    · simp only [fsDel, if_neg hrp, fsFind]
      by_cases hrq : r = q
      · simp [hrq]
      · simp [hrq, ih]

/-! ### Timestamp comparison -/

theorem lexLe_refl : ∀ as, lexLe as as = true := by
  intro as
  induction as with
  | nil => rfl
  | cons a as ih => simp [lexLe, ih]

theorem lexLe_total : ∀ as bs, lexLe as bs = true ∨ lexLe bs as = true := by
  intro as
  induction as with
  | nil => intro bs; left; rfl
  | cons a as ih =>
    intro bs
    cases bs with
    | nil => right; rfl
    | cons b bs =>
      by_cases hab : a < b
      · left; simp [lexLe, hab]
      · by_cases hba : b < a
        · right; simp [lexLe, hba, Nat.lt_asymm hba]
        · have hcases := ih bs
          rcases hcases with h | h
          · left; simp [lexLe, hab, hba, h]
          · right; simp [lexLe, hab, hba, h]

theorem dtLeB_refl (a : DateTime) : dtLeB a a = true := lexLe_refl _

theorem dtLeB_total (a b : DateTime) : dtLeB a b = true ∨ dtLeB b a = true :=
  lexLe_total _ _

/-! ### The opaque-name regular expression -/

theorem alnumRunDollar_iff (cs : List Char) :
    alnumRunDollar cs = true ↔
      ((∀ c ∈ cs, isAsciiAlnum c = true) ∨
        ∃ pre, cs = pre ++ ['\n'] ∧ ∀ c ∈ pre, isAsciiAlnum c = true) := by
  induction cs with
  | nil =>
    constructor
    · intro _; left; intro c hc; cases hc
    · intro _; rfl
  | cons c rest ih =>
    cases rest with
    | nil =>
      constructor
      · intro h
        simp only [alnumRunDollar, Bool.or_eq_true, decide_eq_true_eq] at h
        rcases h with h | h
        · right; exact ⟨[], by simp [h], by intro x hx; cases hx⟩
        · left; intro x hx
          rcases List.mem_singleton.mp hx with rfl
          exact h
      · intro h
        rcases h with h | ⟨pre, hpre, _⟩
        · have := h c (by simp)
          simp [alnumRunDollar, this]
        · have hlen := congrArg List.length hpre
          simp at hlen
          subst hlen
          simp at hpre
          simp [alnumRunDollar, hpre]
    | cons r rs =>
      constructor
      · intro h
        simp only [alnumRunDollar, Bool.and_eq_true] at h
        obtain ⟨hc, hrest⟩ := h
        rcases ih.mp hrest with hall | ⟨pre, hpre, hallpre⟩
        · left
          intro x hx
          rcases List.mem_cons.mp hx with rfl | hx
          · exact hc
          · exact hall x hx
        · right
          refine ⟨c :: pre, by simp [hpre], ?_⟩
          intro x hx
          rcases List.mem_cons.mp hx with rfl | hx
          · exact hc
          · exact hallpre x hx
      · intro h
        have hc : isAsciiAlnum c = true ∧
            ((∀ x ∈ r :: rs, isAsciiAlnum x = true) ∨
              ∃ pre, r :: rs = pre ++ ['\n'] ∧ ∀ x ∈ pre, isAsciiAlnum x = true) := by
          rcases h with hall | ⟨pre, hpre, hallpre⟩
          · exact ⟨hall c (by simp), Or.inl (fun x hx => hall x (by simp [hx]))⟩
          · cases pre with
            | nil => simp at hpre
            | cons p ps =>
              simp only [List.cons_append, List.cons.injEq] at hpre
              obtain ⟨rfl, hrest⟩ := hpre
              refine ⟨hallpre c (by simp), Or.inr ⟨ps, hrest, ?_⟩⟩
              intro x hx
              exact hallpre x (by simp [hx])
        simp only [alnumRunDollar, Bool.and_eq_true]
        exact ⟨hc.1, ih.mpr hc.2⟩

theorem reMatchAlnumDollar_iff (cs : List Char) :
    reMatchAlnumDollar cs = true ↔
      ((cs ≠ [] ∧ ∀ c ∈ cs, isAsciiAlnum c = true) ∨
        ∃ pre, cs = pre ++ ['\n'] ∧ pre ≠ [] ∧ ∀ c ∈ pre, isAsciiAlnum c = true) := by
  cases cs with
  | nil =>
    constructor
    · intro h; cases h
    · intro h
      rcases h with ⟨h, _⟩ | ⟨pre, hpre, _, _⟩
      · exact absurd rfl h
      · exact absurd (congrArg List.length hpre) (by simp)
  | cons c rest =>
    simp only [reMatchAlnumDollar, Bool.and_eq_true]
    constructor
    · intro ⟨hc, hrest⟩
      rcases (alnumRunDollar_iff rest).mp hrest with hall | ⟨pre, hpre, hallpre⟩
      · left
        refine ⟨by simp, ?_⟩
        intro x hx
        rcases List.mem_cons.mp hx with rfl | hx
        · exact hc
        · exact hall x hx
      · right
        refine ⟨c :: pre, by simp [hpre], by simp, ?_⟩
        intro x hx
        rcases List.mem_cons.mp hx with rfl | hx
        · exact hc
        · exact hallpre x hx
    · intro h
      rcases h with ⟨_, hall⟩ | ⟨pre, hpre, hne, hallpre⟩
      · refine ⟨hall c (by simp), ?_⟩
        exact (alnumRunDollar_iff rest).mpr
          (Or.inl (fun x hx => hall x (by simp [hx])))
      · cases pre with
        | nil => exact absurd rfl hne
        | cons p ps =>
          simp only [List.cons_append, List.cons.injEq] at hpre
          obtain ⟨rfl, hrest⟩ := hpre
          refine ⟨hallpre c (by simp), ?_⟩
          exact (alnumRunDollar_iff rest).mpr
            (Or.inr ⟨ps, hrest, fun x hx => hallpre x (by simp [hx])⟩)

/-! ## Claim C10 -/

/-- C10 (amended): a file name is classified opaque exactly when the stem
left by `os.path.splitext` is one or more ASCII alphanumeric characters
optionally followed by a single trailing newline — the trailing-newline
case arises because Python's un-anchored `$` also matches just before a
final newline, which the claim's "and nothing else" gloss misses.  In
particular a purely numeric name is opaque, while names containing an
underscore, hyphen, space, dot or non-ASCII character are not, and `.jpg`
(whose `splitext` stem is `.jpg` itself) is not. -/
theorem c10_is_random_name_characterization :
    (∀ file_name : String,
      Processor.is_random_name file_name = true ↔
        ((((splitextData file_name.data).1 ≠ [] ∧
            ∀ c ∈ (splitextData file_name.data).1, isAsciiAlnum c = true) ∨
          ∃ pre, (splitextData file_name.data).1 = pre ++ ['\n'] ∧ pre ≠ [] ∧
            ∀ c ∈ pre, isAsciiAlnum c = true))) ∧
    Processor.is_random_name "20230101120000.jpg" = true ∧
    Processor.is_random_name "aZ93kD2.jpg" = true ∧
    Processor.is_random_name "a_b.jpg" = false ∧
    Processor.is_random_name "a-b.jpg" = false ∧
    Processor.is_random_name "a b.jpg" = false ∧
    Processor.is_random_name "a.b.jpg" = false ∧
    Processor.is_random_name "图片.jpg" = false ∧
    Processor.is_random_name ".jpg" = false := by
  refine ⟨fun file_name => reMatchAlnumDollar_iff _, ?_, ?_, ?_, ?_, ?_, ?_, ?_, ?_⟩
  all_goals decide

/-- C10 counterexample: `abc\n.jpg` is classified opaque although its stem
contains a newline, which is not an ASCII letter or digit — refuting the
claim's "one or more ASCII letters or digits and nothing else". -/
theorem c10_counterexample :
    Processor.is_random_name "abc\n.jpg" = true ∧
      '\n' ∈ (splitextData ("abc\n.jpg" : String).data).1 ∧
      isAsciiAlnum '\n' = false := by
  refine ⟨?_, ?_, ?_⟩
  all_goals decide

/-! ## Claim C2 -/

/-- C2 (amended): the two class-based resolvers (`_get_image_date` and the
reconstructed `get_image_date`) evaluate EXIF first, then the filename
pattern, then the modification time; the script variant of
`image_merge_and_rename.py` evaluates the filename pattern first, then
EXIF, then the modification time.  In each variant the first strategy that
succeeds determines the result. -/
theorem c2_fallback_orders :
    (∀ (fs : FS) (p : String) (m : FileMeta) (d : DateTime),
        fsFind fs p = some m → m.exif = ExifInfo.date d →
        Processor.get_image_date fs p = some d) ∧
    (∀ (fs : FS) (p : String) (m : FileMeta),
        fsFind fs p = some m → exifInfoDate m.exif = none →
        Processor.get_image_date fs p =
          some ((filenameDate (basename p)).getD m.mtime)) ∧
    (∀ (fs : FS) (p : String) (d : DateTime),
        filenameDate (basename p) = some d →
        MergeRename.get_image_date fs p = some d) ∧
    (∀ (fs : FS) (p : String) (m : FileMeta),
        fsFind fs p = some m → filenameDate (basename p) = none →
        MergeRename.get_image_date fs p =
          some ((exifInfoDate m.exif).getD m.mtime)) := by
  refine ⟨?_, ?_, ?_, ?_⟩
  · intro fs p m d hfind hexif
    simp [Processor.get_image_date, dateExifFirst, hfind, hexif, exifInfoDate]
  · intro fs p m hfind hexif
    cases hfd : filenameDate (basename p) with
    | none => simp [Processor.get_image_date, dateExifFirst, hfind, hexif, hfd]
    | some d => simp [Processor.get_image_date, dateExifFirst, hfind, hexif, hfd]
  · intro fs p d hfd
    simp [MergeRename.get_image_date, dateNameFirst, hfd]
  · intro fs p m hfind hfd
    cases hexif : exifInfoDate m.exif with
    | none => simp [MergeRename.get_image_date, dateNameFirst, hfind, hfd, hexif]
    | some d => simp [MergeRename.get_image_date, dateNameFirst, hfind, hfd, hexif]

/-- C2 counterexample: the file `s/pic_20230101_120000.jpg` carries a
successfully-parsed EXIF date 2000-01-01 00:00:00, yet the script variant
`get_image_date` returns the filename date 2023-01-01 12:00:00 — the
embedded-metadata strategy succeeded but did not determine the result,
refuting the claimed EXIF-first order for every resolver. -/
theorem c2_counterexample :
    (fsFind fsC2 "s/pic_20230101_120000.jpg").map (fun m => exifInfoDate m.exif) =
        some (some ⟨2000, 1, 1, 0, 0, 0⟩) ∧
      MergeRename.get_image_date fsC2 "s/pic_20230101_120000.jpg" =
        some ⟨2023, 1, 1, 12, 0, 0⟩ ∧
      (⟨2023, 1, 1, 12, 0, 0⟩ : DateTime) ≠ ⟨2000, 1, 1, 0, 0, 0⟩ := by
  refine ⟨?_, ?_, ?_⟩
  all_goals decide

theorem c2_witness :
    fsFind fsC2 "s/pic_20230101_120000.jpg" = some metaExif ∧
      metaExif.exif = ExifInfo.date ⟨2000, 1, 1, 0, 0, 0⟩ ∧
      Processor.get_image_date fsC2 "s/pic_20230101_120000.jpg" =
        some ⟨2000, 1, 1, 0, 0, 0⟩ :=
  ⟨by decide, by decide,
    c2_fallback_orders.1 fsC2 "s/pic_20230101_120000.jpg" metaExif
      ⟨2000, 1, 1, 0, 0, 0⟩ (by decide) (by decide)⟩

/-! ## Claim C8 -/

/-- C8: for every existing file both resolvers return a timestamp: when
neither the EXIF tag nor the filename pattern yields a date, the result is
the file's modification time (the guaranteed terminal fallback); and a
corrupt metadata block behaves exactly like an absent one — the exception
is swallowed and the chain continues. -/
theorem c8_resolve_date_total (fs : FS) (p : String) (m : FileMeta)
    (hfind : fsFind fs p = some m) :
    (Processor.get_image_date fs p).isSome = true ∧
      (MergeRename.get_image_date fs p).isSome = true ∧
      (exifInfoDate m.exif = none → filenameDate (basename p) = none →
        Processor.get_image_date fs p = some m.mtime ∧
          MergeRename.get_image_date fs p = some m.mtime) ∧
      Processor.get_image_date (fsSet fs p { m with exif := ExifInfo.corrupt }) p =
        Processor.get_image_date (fsSet fs p { m with exif := ExifInfo.absent }) p := by
  refine ⟨?_, ?_, ?_, ?_⟩
  · cases hex : exifInfoDate m.exif with
    | some d => simp [Processor.get_image_date, dateExifFirst, hfind, hex]
    | none =>
      cases hfd : filenameDate (basename p) with
      | some d => simp [Processor.get_image_date, dateExifFirst, hfind, hex, hfd]
      | none => simp [Processor.get_image_date, dateExifFirst, hfind, hex, hfd]
  · cases hfd : filenameDate (basename p) with
    | some d => simp [MergeRename.get_image_date, dateNameFirst, hfd]
    | none =>
      cases hex : exifInfoDate m.exif with
      | some d => simp [MergeRename.get_image_date, dateNameFirst, hfind, hex, hfd]
      | none => simp [MergeRename.get_image_date, dateNameFirst, hfind, hex, hfd]
  · intro hex hfd
    constructor
    · simp [Processor.get_image_date, dateExifFirst, hfind, hex, hfd]
    · simp [MergeRename.get_image_date, dateNameFirst, hfind, hex, hfd]
  · have hc := fsFind_fsSet_self fs p { m with exif := ExifInfo.corrupt }
    have ha := fsFind_fsSet_self fs p { m with exif := ExifInfo.absent }
    cases hfd : filenameDate (basename p) with
    | some d =>
      simp [Processor.get_image_date, dateExifFirst, hc, ha, exifInfoDate, hfd]
    | none =>
      simp [Processor.get_image_date, dateExifFirst, hc, ha, exifInfoDate, hfd]

theorem c8_witness :
    fsFind fsSingle "s/a.jpg" = some metaPlain ∧
      (Processor.get_image_date fsSingle "s/a.jpg").isSome = true :=
  ⟨by decide, (c8_resolve_date_total fsSingle "s/a.jpg" metaPlain (by decide)).1⟩

/-! ## Claim C6 -/

/-- C6 (amended): in `collect_and_deduplicate_images`, a copy failure
after a successful fingerprint is caught, reported, and leaves the
deduplication index with NO entry for that fingerprint — the index insert
happens only after `shutil.copy2` succeeds, so there is nothing to roll
back and the fingerprint remains claimable by a later identical file. -/
theorem c6_failed_copy_writes_no_index_entry
    (md5 : List Nat → Nat) (unw : List String) (target_folder : String)
    (st : CState) (root file : String) (m : FileMeta)
    (himg : isImageFile file = true)
    (hfind : fsFind st.fs (pathJoin root file) = some m)
    (hnew : dictFind st.hash_dict (md5 m.content) = none)
    (hfail : copy2 unw st.fs (pathJoin root file)
        (get_unique_target_path st.fs target_folder file) = none) :
    (ReconProcessor.collect_step md5 unw target_folder st (root, file)).hash_dict =
        st.hash_dict ∧
      (ReconProcessor.collect_step md5 unw target_folder st (root, file)).collected =
        st.collected ∧
      (ReconProcessor.collect_step md5 unw target_folder st (root, file)).fs = st.fs ∧
      (ReconProcessor.collect_step md5 unw target_folder st (root, file)).errors =
        st.errors ++ [pathJoin root file] := by
  refine ⟨?_, ?_, ?_, ?_⟩
  all_goals simp [ReconProcessor.collect_step, himg, hfind, hnew, hfail]

/-- C6 counterexample: one source file `s/a.jpg` whose allocated target
path `t/a.jpg` is unwritable: the copy fails and is reported, and
afterwards the deduplication index is empty — it does NOT still contain an
entry mapping the fingerprint to the allocated target path, as the claim
asserts. -/
theorem c6_counterexample :
    (ReconProcessor.collect_and_deduplicate_images md5c ["t/a.jpg"] "t"
        walkedSingle fsSingle).errors = ["s/a.jpg"] ∧
      (ReconProcessor.collect_and_deduplicate_images md5c ["t/a.jpg"] "t"
        walkedSingle fsSingle).hash_dict = [] := by
  refine ⟨?_, ?_⟩
  all_goals decide

theorem c6_witness :
    (isImageFile "a.jpg" = true ∧
      fsFind (initCState fsSingle).fs (pathJoin "s" "a.jpg") = some metaPlain ∧
      copy2 ["t/a.jpg"] (initCState fsSingle).fs (pathJoin "s" "a.jpg")
        (get_unique_target_path (initCState fsSingle).fs "t" "a.jpg") = none) ∧
    (ReconProcessor.collect_step md5c ["t/a.jpg"] "t" (initCState fsSingle)
      ("s", "a.jpg")).hash_dict = (initCState fsSingle).hash_dict :=
  ⟨⟨by decide, by decide, by decide⟩,
    (c6_failed_copy_writes_no_index_entry md5c ["t/a.jpg"] "t" (initCState fsSingle)
      "s" "a.jpg" metaPlain (by decide) (by decide) (by decide) (by decide)).1⟩

/-! ## Claim C9 -/

/-- C9 (amended): when the rename of the current record fails, the script
variants' loop reports the record and processes all remaining records
exactly as it otherwise would, while the class-based `_rename_images`
raises `ImageRenameError` and stops, leaving every later record
unrenamed. -/
theorem c9_rename_failure_dichotomy
    (unw : List String) (target_folder : String) (fs : FS)
    (old_path : String) (date : DateTime) (rest : List (String × DateTime)) (idx : Nat)
    (hfail : osRename unw fs old_path
        (pathJoin target_folder (newNameFor idx (basename old_path) date)) = none) :
    renameLoopSkip unw target_folder fs idx ((old_path, date) :: rest) =
        ((renameLoopSkip unw target_folder fs (idx + 1) rest).1,
          old_path :: (renameLoopSkip unw target_folder fs (idx + 1) rest).2) ∧
      renameLoopAbort unw target_folder fs idx ((old_path, date) :: rest) = (fs, true) := by
  constructor
  · simp [renameLoopSkip, hfail]
  · simp [renameLoopAbort, hfail]

/-- C9 counterexample: two records `t/x.jpg`, `t/y.jpg`; only the rename
of `t/x.jpg` fails (its destination is unwritable; `t/y.jpg`'s rename
would succeed).  The class-based pass raises and exits, leaving the later
record `t/y.jpg` unrenamed — refuting the claim for `_rename_images`. -/
theorem c9_counterexample :
    Processor.rename_images ["t/0001_20210101_000000.jpg"] "t" fsRen
        ["t/x.jpg", "t/y.jpg"] = (fsRen, true) ∧
      fsFind fsRen "t/y.jpg" = some metaY ∧
      fsHas fsRen "t/0002_20220202_000000.jpg" = false ∧
      osRename ["t/0001_20210101_000000.jpg"] fsRen "t/y.jpg"
        "t/0002_20220202_000000.jpg" ≠ none := by
  refine ⟨?_, ?_, ?_, ?_⟩
  all_goals decide

theorem c9_witness :
    (osRename ["t/0001_20210101_000000.jpg"] fsRen "t/x.jpg"
        (pathJoin "t" (newNameFor 1 (basename "t/x.jpg") ⟨2021, 1, 1, 0, 0, 0⟩)) =
        none) ∧
      renameLoopAbort ["t/0001_20210101_000000.jpg"] "t" fsRen 1
        [("t/x.jpg", ⟨2021, 1, 1, 0, 0, 0⟩), ("t/y.jpg", ⟨2022, 2, 2, 0, 0, 0⟩)] =
        (fsRen, true) :=
  ⟨by decide,
    (c9_rename_failure_dichotomy ["t/0001_20210101_000000.jpg"] "t" fsRen "t/x.jpg"
      ⟨2021, 1, 1, 0, 0, 0⟩ [("t/y.jpg", ⟨2022, 2, 2, 0, 0, 0⟩)] 1 (by decide)).2⟩

/-! ## Claim C4 -/

/-- C4: evaluation of the class-based pipeline at the failing input — a
single source file with the opaque base name `abc123`.  `_copy_unique_image`
routes it to `add_prefix_to_image`, whose `os.rename` MOVES the source
file out of the source directory into the target; the subsequent
`shutil.copy2` then raises (its source is gone) and the run aborts.  The
source directory is mutated: `s/abc123.jpg` no longer exists. -/
theorem c4_opaque_source_moved_out_of_source :
    (Processor.collect_and_deduplicate_images md5c [] "t"
        [("s", "abc123.jpg")] fsOpaque).aborted = true ∧
      fsFind (Processor.collect_and_deduplicate_images md5c [] "t"
        [("s", "abc123.jpg")] fsOpaque).fs "s/abc123.jpg" = none ∧
      fsFind (Processor.collect_and_deduplicate_images md5c [] "t"
        [("s", "abc123.jpg")] fsOpaque).fs "t/疑似网图_abc123.jpg" = some metaPlain := by
  refine ⟨?_, ?_, ?_⟩
  all_goals decide

/-! ## Claim C3 (counterexample part) -/

/-- C3 counterexample: the marker-prefix path performs no existence check:
with `t/疑似网图_abc1.jpg` already present (content `metaB`),
`add_prefix_to_image` for the opaque-named source `s/abc1.jpg` returns
that very same existing path and its `os.rename` replaces the existing
file — an overwrite, refuting the claim that the no-overwrite guarantee
also holds on the opaque-name code path. -/
theorem c3_counterexample :
    fsHas fsPrefixClash "t/疑似网图_abc1.jpg" = true ∧
      Processor.add_prefix_to_image [] fsPrefixClash "s/abc1.jpg" "t" "疑似网图" =
        some ([("t/疑似网图_abc1.jpg", metaPlain)], "t/疑似网图_abc1.jpg") ∧
      metaPlain ≠ metaB := by
  refine ⟨?_, ?_, ?_⟩
  all_goals decide

/-! ### Freshness of the numeric-suffix allocator -/

theorem mkCandidate_data (dir stem ext : String) (k : Nat) :
    (mkCandidate dir stem ext k).data =
      (dir.data ++ '/' :: stem.data ++ ['_']) ++ (natToChars k ++ ext.data) := by
  simp only [mkCandidate, pathJoin, natToStr, string_data_append, string_mk_data,
    List.append_assoc]
  rfl

theorem mkCandidate_inj (dir stem ext : String) :
    Function.Injective (mkCandidate dir stem ext) := by
  intro a b h
  have hd := congrArg String.data h
  rw [mkCandidate_data, mkCandidate_data] at hd
  have h1 := List.append_cancel_left hd
  have h2 := List.append_cancel_right h1
  exact natToChars_injective h2

theorem fsHas_mem_keys (fs : FS) (p : String) (h : fsHas fs p = true) :
    p ∈ fs.map Prod.fst := by
  induction fs with
  | nil => simp [fsHas, fsFind] at h
  | cons hd tl ih =>
    obtain ⟨q, m⟩ := hd
    by_cases hq : q = p
    · simp [hq]
    · simp only [fsHas, fsFind, if_neg hq] at h
      simp [ih h]

theorem allocLoop_not_mem (fs : FS) (dir stem ext : String) :
    ∀ (fuel k : Nat),
      (∃ i < fuel, fsHas fs (mkCandidate dir stem ext (k + i)) = false) →
      fsHas fs (allocLoop fs dir stem ext fuel k) = false := by
  intro fuel
  induction fuel with
  | zero =>
    intro k h
    obtain ⟨i, hi, _⟩ := h
    omega
  | succ fuel ih =>
    intro k h
    cases hc : fsHas fs (mkCandidate dir stem ext k) with
    | false => simp [allocLoop, hc]
    | true =>
      simp only [allocLoop, hc, if_true]
      apply ih
      obtain ⟨i, hi, hfree⟩ := h
      cases i with
      | zero =>
        rw [Nat.add_zero] at hfree
        rw [hc] at hfree
        cases hfree
      | succ i =>
        refine ⟨i, by omega, ?_⟩
        have : k + 1 + i = k + (i + 1) := by omega
        rw [this]
        exact hfree

theorem exists_free_candidate (fs : FS) (dir stem ext : String) :
    ∃ i < fs.length + 1, fsHas fs (mkCandidate dir stem ext (1 + i)) = false := by
  by_contra hall
  push_neg at hall
  have hall' : ∀ i < fs.length + 1, fsHas fs (mkCandidate dir stem ext (1 + i)) = true := by
    intro i hi
    cases hb : fsHas fs (mkCandidate dir stem ext (1 + i)) with
    | false => exact absurd hb (hall i hi)
    | true => rfl
  set cand : List String :=
    (List.range (fs.length + 1)).map (fun i => mkCandidate dir stem ext (1 + i)) with hcand
  have hnodup : cand.Nodup := by
    refine (List.nodup_range (fs.length + 1)).map ?_
    intro a b hab
    have := mkCandidate_inj dir stem ext hab
    omega
  have hsub : ∀ p ∈ cand, p ∈ fs.map Prod.fst := by
    intro p hp
    rw [hcand] at hp
    obtain ⟨i, hi, rfl⟩ := List.mem_map.mp hp
    exact fsHas_mem_keys fs _ (hall' i (List.mem_range.mp hi))
  have hcard1 : cand.toFinset.card = fs.length + 1 := by
    rw [List.toFinset_card_of_nodup hnodup, hcand]
    simp
  have hcard2 : cand.toFinset.card ≤ (fs.map Prod.fst).toFinset.card := by
    apply Finset.card_le_card
    intro p hp
    exact List.mem_toFinset.mpr (hsub p (List.mem_toFinset.mp hp))
  have hcard3 : (fs.map Prod.fst).toFinset.card ≤ fs.length := by
    calc (fs.map Prod.fst).toFinset.card ≤ (fs.map Prod.fst).length :=
          List.toFinset_card_le _
      _ = fs.length := List.length_map _ _
  omega

/-- The numeric-suffix allocator never returns an existing path. -/
theorem get_unique_target_path_fresh (fs : FS) (dir file : String) :
    fsHas fs (get_unique_target_path fs dir file) = false := by
  unfold get_unique_target_path
  cases h0 : fsHas fs (pathJoin dir file) with
  | false => simp [h0]
  | true =>
    simp only [h0, if_true]
    exact allocLoop_not_mem fs dir (splitext file).1 (splitext file).2
      (fs.length + 1) 1 (exists_free_candidate fs dir (splitext file).1 (splitext file).2)

/-! ### Characterizing one step of the script collection loop -/

theorem exists_mem_append_singleton {α : Type} (l : List α) (a : α) (P : α → Prop) :
    (∃ x ∈ l ++ [a], P x) ↔ (∃ x ∈ l, P x) ∨ P a := by
  constructor
  · rintro ⟨x, hx, hP⟩
    rcases List.mem_append.mp hx with hx | hx
    · exact Or.inl ⟨x, hx, hP⟩
    · rcases List.mem_singleton.mp hx with rfl
      exact Or.inr hP
  · rintro (⟨x, hx, hP⟩ | hP)
    · exact ⟨x, List.mem_append_left _ hx, hP⟩
    · exact ⟨a, by simp, hP⟩

theorem collect_step_not_image (md5 : List Nat → Nat) (unw : List String)
    (target_folder : String) (st : CState) (e : String × String)
    (himg : isImageFile e.2 = false) :
    MergeRename.collect_step md5 unw target_folder st e = st := by
  by_cases hab : st.aborted = true
  · simp [MergeRename.collect_step, hab]
  · simp only [Bool.not_eq_true] at hab
    simp [MergeRename.collect_step, hab, himg]

theorem collect_step_skip (md5 : List Nat → Nat) (unw : List String)
    (target_folder : String) (st : CState) (e : String × String) (m : FileMeta)
    (p0 : String)
    (hab : st.aborted = false)
    (himg : isImageFile e.2 = true)
    (hm : fsFind st.fs (pathJoin e.1 e.2) = some m)
    (hdict : dictFind st.hash_dict (md5 m.content) = some p0) :
    MergeRename.collect_step md5 unw target_folder st e = st := by
  simp [MergeRename.collect_step, hab, himg, hm, hdict]

theorem collect_step_copy (md5 : List Nat → Nat) (target_folder : String)
    (st : CState) (e : String × String) (m : FileMeta)
    (hab : st.aborted = false)
    (himg : isImageFile e.2 = true)
    (hm : fsFind st.fs (pathJoin e.1 e.2) = some m)
    (hdict : dictFind st.hash_dict (md5 m.content) = none) :
    MergeRename.collect_step md5 [] target_folder st e =
      { st with
        fs := fsSet st.fs (get_unique_target_path st.fs target_folder e.2) m
        collected := st.collected ++ [get_unique_target_path st.fs target_folder e.2]
        hash_dict := (md5 m.content, get_unique_target_path st.fs target_folder e.2) ::
          st.hash_dict } := by
  simp [MergeRename.collect_step, hab, himg, hm, hdict, copy2]

/-! ### The collection-run invariant -/

/-- Induction over the walked prefix: the script collection run (with no
copy failures) never aborts, preserves every pre-existing file unchanged,
its fingerprint index holds exactly the fingerprints of the image files
walked so far, and the collected target paths are pairwise distinct and
all present in the resulting file system. -/
theorem collect_run_invariant (md5 : List Nat → Nat) (target_folder : String) (fs0 : FS)
    (pre : List (String × String))
    (hsrc : ∀ e ∈ pre, isImageFile e.2 = true → fsHas fs0 (pathJoin e.1 e.2) = true) :
    (MergeRename.collect_and_duplicate_images md5 [] target_folder pre fs0).aborted =
        false ∧
      (∀ p m, fsFind fs0 p = some m →
        fsFind (MergeRename.collect_and_duplicate_images md5 [] target_folder pre
          fs0).fs p = some m) ∧
      (∀ h,
        (dictFind (MergeRename.collect_and_duplicate_images md5 [] target_folder pre
            fs0).hash_dict h).isSome = true ↔
          ∃ e ∈ pre, isImageFile e.2 = true ∧
            (fsFind fs0 (pathJoin e.1 e.2)).map (fun m => md5 m.content) = some h) ∧
      (MergeRename.collect_and_duplicate_images md5 [] target_folder pre
        fs0).collected.Nodup ∧
      (∀ c ∈ (MergeRename.collect_and_duplicate_images md5 [] target_folder pre
          fs0).collected,
        fsHas (MergeRename.collect_and_duplicate_images md5 [] target_folder pre
          fs0).fs c = true) := by
  induction pre using List.reverseRecOn with
  | nil =>
    refine ⟨rfl, ?_, ?_, ?_, ?_⟩
    · intro p m hm
      exact hm
    · intro h
      simp [MergeRename.collect_and_duplicate_images, initCState, dictFind]
    · exact List.nodup_nil
    · intro c hc
      cases hc
  | append_singleton pre e ih =>
    have hsrc' : ∀ e' ∈ pre, isImageFile e'.2 = true →
        fsHas fs0 (pathJoin e'.1 e'.2) = true :=
      fun e' he' himg => hsrc e' (List.mem_append_left _ he') himg
    obtain ⟨ih1, ih2, ih3, ih4, ih5⟩ := ih hsrc'
    have hunfold : MergeRename.collect_and_duplicate_images md5 [] target_folder
        (pre ++ [e]) fs0 =
        MergeRename.collect_step md5 [] target_folder
          (MergeRename.collect_and_duplicate_images md5 [] target_folder pre fs0) e := by
      unfold MergeRename.collect_and_duplicate_images
      rw [List.foldl_append]
      rfl
    rw [hunfold]
    set st := MergeRename.collect_and_duplicate_images md5 [] target_folder pre fs0
      with hst
    cases himg : isImageFile e.2 with
    | false =>
      rw [collect_step_not_image md5 [] target_folder st e himg]
      refine ⟨ih1, ih2, ?_, ih4, ih5⟩
      intro h
      rw [ih3 h, exists_mem_append_singleton]
      constructor
      · exact Or.inl
      · rintro (hh | ⟨himg', _⟩)
        · exact hh
        · rw [himg] at himg'
          cases himg'
    | true =>
      have hfs0has : fsHas fs0 (pathJoin e.1 e.2) = true := hsrc e (by simp) himg
      obtain ⟨m0, hm0⟩ : ∃ m0, fsFind fs0 (pathJoin e.1 e.2) = some m0 := by
        cases hf : fsFind fs0 (pathJoin e.1 e.2) with
        | none => rw [fsHas, hf] at hfs0has; cases hfs0has
        | some m0 => exact ⟨m0, rfl⟩
      have hmst : fsFind st.fs (pathJoin e.1 e.2) = some m0 := ih2 _ _ hm0
      cases hdict : dictFind st.hash_dict (md5 m0.content) with
      | some p0 =>
        rw [collect_step_skip md5 [] target_folder st e m0 p0 ih1 himg hmst hdict]
        refine ⟨ih1, ih2, ?_, ih4, ih5⟩
        intro h
        rw [ih3 h, exists_mem_append_singleton]
        constructor
        · exact Or.inl
        · rintro (hh | ⟨-, hhash⟩)
          · exact hh
          · rw [hm0] at hhash
            simp only [Option.map_some', Option.some.injEq] at hhash
            subst hhash
            exact (ih3 _).mp (by rw [hdict]; rfl)
      | none =>
        rw [collect_step_copy md5 target_folder st e m0 ih1 himg hmst hdict]
        have hfresh : fsHas st.fs (get_unique_target_path st.fs target_folder e.2) =
            false := get_unique_target_path_fresh st.fs target_folder e.2
        refine ⟨ih1, ?_, ?_, ?_, ?_⟩
        · intro p m hm
          have hstp := ih2 p m hm
          have hne : p ≠ get_unique_target_path st.fs target_folder e.2 := by
            intro heq
            rw [← heq, fsHas, hstp] at hfresh
            cases hfresh
          show fsFind (fsSet st.fs (get_unique_target_path st.fs target_folder e.2) m0)
            p = some m
          rw [fsFind_fsSet_other _ _ _ _ hne]
          exact hstp
        · intro h
          simp only [dictFind]
          rw [exists_mem_append_singleton]
          by_cases hh : md5 m0.content = h
          · simp only [hh, if_pos rfl]
            constructor
            · intro _
              exact Or.inr ⟨himg, by rw [hm0]; simp [hh]⟩
            · intro _
              rfl
          · rw [if_neg hh]
            rw [ih3 h]
            constructor
            · exact Or.inl
            · rintro (hll | ⟨-, hhash⟩)
              · exact hll
              · rw [hm0] at hhash
                simp only [Option.map_some', Option.some.injEq] at hhash
                exact absurd hhash hh
        · show (st.collected ++ [get_unique_target_path st.fs target_folder e.2]).Nodup
          rw [List.nodup_append]
          refine ⟨ih4, List.nodup_singleton _, ?_⟩
          intro c hc hc'
          have hceq := List.mem_singleton.mp hc'
          subst hceq
          have hcoll := ih5 _ hc
          rw [hcoll] at hfresh
          cases hfresh
        · intro c hc
          rcases List.mem_append.mp hc with hc | hc
          · have hcst := ih5 c hc
            by_cases hceq : c = get_unique_target_path st.fs target_folder e.2
            · subst hceq
              simp [fsHas, fsFind_fsSet_self]
            · simp only [fsHas]
              rw [fsFind_fsSet_other _ _ _ _ hceq]
              exact hcst
          · rcases List.mem_singleton.mp hc with rfl
            simp [fsHas, fsFind_fsSet_self]

theorem collect_split (md5 : List Nat → Nat) (target_folder : String) (fs0 : FS)
    (l1 l2 : List (String × String)) (a : String × String) :
    MergeRename.collect_and_duplicate_images md5 [] target_folder (l1 ++ a :: l2) fs0 =
      List.foldl (MergeRename.collect_step md5 [] target_folder)
        (MergeRename.collect_step md5 [] target_folder
          (MergeRename.collect_and_duplicate_images md5 [] target_folder l1 fs0) a)
        l2 := by
  unfold MergeRename.collect_and_duplicate_images
  rw [List.foldl_append]
  rfl

theorem collect_split_append (md5 : List Nat → Nat) (target_folder : String) (fs0 : FS)
    (l1 l2 : List (String × String)) :
    MergeRename.collect_and_duplicate_images md5 [] target_folder (l1 ++ l2) fs0 =
      List.foldl (MergeRename.collect_step md5 [] target_folder)
        (MergeRename.collect_and_duplicate_images md5 [] target_folder l1 fs0) l2 := by
  unfold MergeRename.collect_and_duplicate_images
  rw [List.foldl_append]

/-! ## Claim C1 -/

/-- C1: in a collection run with no copy failures, (a) no pre-existing
file — in particular no source file — is modified or deleted; (b) a walked
image file whose content digest equals that of an earlier walked image
file is skipped entirely: removing it from the walk does not change the
run's outcome at all (it is not copied, not recorded in the index, and its
source stays untouched); (c) the first walked image file carrying a given
fingerprint is copied to a freshly allocated target path and recorded in
the deduplication index under that fingerprint. -/
theorem c1_first_copy_wins (md5 : List Nat → Nat) (target_folder : String) (fs0 : FS)
    (walked : List (String × String))
    (hsrc : ∀ e ∈ walked, isImageFile e.2 = true →
      fsHas fs0 (pathJoin e.1 e.2) = true) :
    (∀ p m, fsFind fs0 p = some m →
      fsFind (MergeRename.collect_and_duplicate_images md5 [] target_folder walked
        fs0).fs p = some m) ∧
    (∀ pre dup suf e' m m', walked = pre ++ dup :: suf →
      e' ∈ pre → isImageFile e'.2 = true → isImageFile dup.2 = true →
      fsFind fs0 (pathJoin e'.1 e'.2) = some m' →
      fsFind fs0 (pathJoin dup.1 dup.2) = some m →
      md5 m'.content = md5 m.content →
      MergeRename.collect_and_duplicate_images md5 [] target_folder (pre ++ dup :: suf)
          fs0 =
        MergeRename.collect_and_duplicate_images md5 [] target_folder (pre ++ suf)
          fs0) ∧
    (∀ pre e suf m, walked = pre ++ e :: suf →
      isImageFile e.2 = true →
      fsFind fs0 (pathJoin e.1 e.2) = some m →
      (∀ e' m', e' ∈ pre → isImageFile e'.2 = true →
        fsFind fs0 (pathJoin e'.1 e'.2) = some m' →
        md5 m'.content ≠ md5 m.content) →
      MergeRename.collect_and_duplicate_images md5 [] target_folder (pre ++ [e]) fs0 =
        { MergeRename.collect_and_duplicate_images md5 [] target_folder pre fs0 with
          fs := fsSet
            (MergeRename.collect_and_duplicate_images md5 [] target_folder pre fs0).fs
            (get_unique_target_path
              (MergeRename.collect_and_duplicate_images md5 [] target_folder pre
                fs0).fs target_folder e.2) m
          collected :=
            (MergeRename.collect_and_duplicate_images md5 [] target_folder pre
              fs0).collected ++
              [get_unique_target_path
                (MergeRename.collect_and_duplicate_images md5 [] target_folder pre
                  fs0).fs target_folder e.2]
          hash_dict :=
            (md5 m.content,
              get_unique_target_path
                (MergeRename.collect_and_duplicate_images md5 [] target_folder pre
                  fs0).fs target_folder e.2) ::
              (MergeRename.collect_and_duplicate_images md5 [] target_folder pre
                fs0).hash_dict }) := by
  refine ⟨?_, ?_, ?_⟩
  · exact (collect_run_invariant md5 target_folder fs0 walked hsrc).2.1
  · intro pre dup suf e' m m' hw he' himg' himgd hm' hm hhash
    subst hw
    have hsrcpre : ∀ x ∈ pre, isImageFile x.2 = true →
        fsHas fs0 (pathJoin x.1 x.2) = true :=
      fun x hx himg => hsrc x (List.mem_append_left _ hx) himg
    obtain ⟨ih1, ih2, ih3, -, -⟩ :=
      collect_run_invariant md5 target_folder fs0 pre hsrcpre
    have hseen : (dictFind
        (MergeRename.collect_and_duplicate_images md5 [] target_folder pre
          fs0).hash_dict (md5 m.content)).isSome = true := by
      rw [ih3]
      exact ⟨e', he', himg', by rw [hm']; simp [hhash]⟩
    obtain ⟨p0, hp0⟩ : ∃ p0, dictFind
        (MergeRename.collect_and_duplicate_images md5 [] target_folder pre
          fs0).hash_dict (md5 m.content) = some p0 := by
      cases hd : dictFind (MergeRename.collect_and_duplicate_images md5 [] target_folder
          pre fs0).hash_dict (md5 m.content) with
      | none => rw [hd] at hseen; cases hseen
      | some p0 => exact ⟨p0, rfl⟩
    have hmst := ih2 _ _ hm
    rw [collect_split, collect_split_append,
      collect_step_skip md5 [] target_folder _ dup m p0 ih1 himgd hmst hp0]
  · intro pre e suf m hw himg hm hfirst
    subst hw
    have hsrcpre : ∀ x ∈ pre, isImageFile x.2 = true →
        fsHas fs0 (pathJoin x.1 x.2) = true :=
      fun x hx himgx => hsrc x (List.mem_append_left _ hx) himgx
    obtain ⟨ih1, ih2, ih3, -, -⟩ :=
      collect_run_invariant md5 target_folder fs0 pre hsrcpre
    have hnew : dictFind
        (MergeRename.collect_and_duplicate_images md5 [] target_folder pre
          fs0).hash_dict (md5 m.content) = none := by
      cases hd : dictFind (MergeRename.collect_and_duplicate_images md5 [] target_folder
          pre fs0).hash_dict (md5 m.content) with
      | none => rfl
      | some p0 =>
        have hsome : (dictFind (MergeRename.collect_and_duplicate_images md5 []
            target_folder pre fs0).hash_dict (md5 m.content)).isSome = true := by
          rw [hd]; rfl
        obtain ⟨e', he', himg', hmap⟩ := (ih3 _).mp hsome
        obtain ⟨m', hm', hh'⟩ : ∃ m', fsFind fs0 (pathJoin e'.1 e'.2) = some m' ∧
            md5 m'.content = md5 m.content := by
          cases hf : fsFind fs0 (pathJoin e'.1 e'.2) with
          | none => rw [hf] at hmap; cases hmap
          | some m' =>
            rw [hf] at hmap
            simp only [Option.map_some', Option.some.injEq] at hmap
            exact ⟨m', rfl, hmap⟩
        exact absurd hh' (hfirst e' m' he' himg' hm')
    have hmst := ih2 _ _ hm
    rw [collect_split]
    rw [collect_step_copy md5 target_folder _ e m ih1 himg hmst hnew]
    rfl

theorem c1_witness :
    ((∀ e ∈ walkedPair, isImageFile e.2 = true →
        fsHas fsPair (pathJoin e.1 e.2) = true) ∧
      walkedPair = [("s", "a.jpg")] ++ ("s/b", "a.jpg") :: [("s", "c.jpg")] ∧
      ("s", "a.jpg") ∈ [(("s", "a.jpg") : String × String)] ∧
      fsFind fsPair (pathJoin "s" "a.jpg") = some metaPlain ∧
      fsFind fsPair (pathJoin "s/b" "a.jpg") = some metaPlain) ∧
    MergeRename.collect_and_duplicate_images md5c [] "t"
        ([("s", "a.jpg")] ++ ("s/b", "a.jpg") :: [("s", "c.jpg")]) fsPair =
      MergeRename.collect_and_duplicate_images md5c [] "t"
        ([("s", "a.jpg")] ++ [("s", "c.jpg")]) fsPair :=
  ⟨⟨by decide, by decide, by decide, by decide, by decide⟩,
    (c1_first_copy_wins md5c "t" fsPair walkedPair (by decide)).2.1
      [("s", "a.jpg")] ("s/b", "a.jpg") [("s", "c.jpg")] ("s", "a.jpg")
      metaPlain metaPlain (by decide) (by decide) (by decide) (by decide)
      (by decide) (by decide) rfl⟩

/-! ## Claim C5 -/

/-- C5 (amended): the fingerprint index is an in-memory, per-run object:
it starts empty on every run and afterwards holds exactly the fingerprints
of the image files walked in THIS run — the contents of the target
directory (for example the output of an earlier run) are never consulted.
Consequently a second run over unchanged sources does not skip
fingerprints already present in the target: the first walked occurrence of
every fingerprint is copied (to a freshly allocated path) and recorded
again. -/
theorem c5_index_is_per_run (md5 : List Nat → Nat) (target_folder : String) (fs0 : FS)
    (walked : List (String × String))
    (hsrc : ∀ e ∈ walked, isImageFile e.2 = true →
      fsHas fs0 (pathJoin e.1 e.2) = true) :
    (∀ h,
      (dictFind (MergeRename.collect_and_duplicate_images md5 [] target_folder walked
          fs0).hash_dict h).isSome = true ↔
        ∃ e ∈ walked, isImageFile e.2 = true ∧
          (fsFind fs0 (pathJoin e.1 e.2)).map (fun m => md5 m.content) = some h) ∧
    (∀ pre e suf m, walked = pre ++ e :: suf →
      isImageFile e.2 = true →
      fsFind fs0 (pathJoin e.1 e.2) = some m →
      (∀ e' m', e' ∈ pre → isImageFile e'.2 = true →
        fsFind fs0 (pathJoin e'.1 e'.2) = some m' →
        md5 m'.content ≠ md5 m.content) →
      (MergeRename.collect_and_duplicate_images md5 [] target_folder (pre ++ [e])
          fs0).collected =
        (MergeRename.collect_and_duplicate_images md5 [] target_folder pre
          fs0).collected ++
          [get_unique_target_path
            (MergeRename.collect_and_duplicate_images md5 [] target_folder pre
              fs0).fs target_folder e.2]) := by
  constructor
  · exact (collect_run_invariant md5 target_folder fs0 walked hsrc).2.2.1
  · intro pre e suf m hw himg hm hfirst
    have hcopy := (c1_first_copy_wins md5 target_folder fs0 walked hsrc).2.2
      pre e suf m hw himg hm hfirst
    rw [hcopy]

theorem c5_witness :
    ((∀ e ∈ walkedSingle, isImageFile e.2 = true →
        fsHas fsAfterRun1 (pathJoin e.1 e.2) = true) ∧
      walkedSingle = [] ++ ("s", "a.jpg") :: [] ∧
      fsFind fsAfterRun1 (pathJoin "s" "a.jpg") = some metaPlain) ∧
    (MergeRename.collect_and_duplicate_images md5c [] "t" ([] ++ [("s", "a.jpg")])
        fsAfterRun1).collected =
      (MergeRename.collect_and_duplicate_images md5c [] "t" []
        fsAfterRun1).collected ++
        [get_unique_target_path
          (MergeRename.collect_and_duplicate_images md5c [] "t" [] fsAfterRun1).fs
          "t" "a.jpg"] :=
  ⟨⟨by decide, by decide, by decide⟩,
    (c5_index_is_per_run md5c "t" fsAfterRun1 walkedSingle (by decide)).2
      [] ("s", "a.jpg") [] metaPlain rfl (by decide) (by decide)
      (fun e' m' he' => absurd he' (List.not_mem_nil e'))⟩

/-- C5 counterexample: run the script pipeline once on the single source
file `s/a.jpg` (target ends up holding only `t/0001_20230101_120000.jpg`,
whose fingerprint is that of `s/a.jpg`), then run the collection again
with no source changes.  The second run re-copies the file as the new
target file `t/a.jpg` instead of skipping its already-present
fingerprint. -/
theorem c5_counterexample :
    fsFind fsAfterRun1 "t/a.jpg" = none ∧
      (fsFind fsAfterRun1 "t/0001_20230101_120000.jpg").map
        (fun m => md5c m.content) = some (md5c metaPlain.content) ∧
      (MergeRename.collect_and_duplicate_images md5c [] "t" walkedSingle
        fsAfterRun1).collected = ["t/a.jpg"] ∧
      fsFind (MergeRename.collect_and_duplicate_images md5c [] "t" walkedSingle
        fsAfterRun1).fs "t/a.jpg" = some metaPlain := by
  refine ⟨?_, ?_, ?_, ?_⟩
  all_goals decide

/-! ## Claim C3 (theorem part) -/

/-- C3 (amended): the numeric-suffix allocator is overwrite-free — it
never returns an existing path, and across one collection run the
allocated-and-copied target paths are pairwise distinct (N colliding
desired names yield N distinct paths).  The marker-prefix path for
opaque names performs no such check (see the counterexample). -/
theorem c3_numeric_allocator_no_overwrite :
    (∀ (fs : FS) (target_folder file : String),
      fsHas fs (get_unique_target_path fs target_folder file) = false) ∧
    (∀ (md5 : List Nat → Nat) (target_folder : String) (fs0 : FS)
        (walked : List (String × String)),
      (∀ e ∈ walked, isImageFile e.2 = true →
        fsHas fs0 (pathJoin e.1 e.2) = true) →
      (MergeRename.collect_and_duplicate_images md5 [] target_folder walked
        fs0).collected.Nodup) := by
  constructor
  · exact get_unique_target_path_fresh
  · intro md5 target_folder fs0 walked hsrc
    exact (collect_run_invariant md5 target_folder fs0 walked hsrc).2.2.2.1

theorem c3_witness :
    ((∀ e ∈ walkedPair, isImageFile e.2 = true →
        fsHas fsPair (pathJoin e.1 e.2) = true) ∧
      fsHas fsPair (get_unique_target_path fsPair "t" "a.jpg") = false) ∧
    (MergeRename.collect_and_duplicate_images md5c [] "t" walkedPair
      fsPair).collected.Nodup :=
  ⟨⟨by decide, c3_numeric_allocator_no_overwrite.1 fsPair "t" "a.jpg"⟩,
    c3_numeric_allocator_no_overwrite.2 md5c "t" fsPair walkedPair (by decide)⟩

/-! ### The stable sort of the rename pass -/

theorem lexLe_cons_iff (a b : Nat) (as bs : List Nat) :
    lexLe (a :: as) (b :: bs) = true ↔ a < b ∨ (a = b ∧ lexLe as bs = true) := by
  simp only [lexLe]
  by_cases h1 : a < b
  · simp [h1]
  · by_cases h2 : b < a
    · rw [if_neg h1, if_pos h2]
      constructor
      · intro h; cases h
      · rintro (h | ⟨h, -⟩)
        · exact absurd h h1
        · omega
    · have hab : a = b := by omega
      rw [if_neg h1, if_neg h2]
      constructor
      · intro h; exact Or.inr ⟨hab, h⟩
      · rintro (h | ⟨-, h⟩)
        · exact absurd h h1
        · exact h

theorem lexLe_trans : ∀ as bs cs, lexLe as bs = true → lexLe bs cs = true →
    lexLe as cs = true := by
  intro as
  induction as with
  | nil => intro bs cs _ _; rfl
  | cons a as ih =>
    intro bs cs hab hbc
    cases bs with
    | nil => simp [lexLe] at hab
    | cons b bs =>
      cases cs with
      | nil => simp [lexLe] at hbc
      | cons c cs =>
        rw [lexLe_cons_iff] at hab hbc ⊢
        rcases hab with hab | ⟨hab, hab'⟩
        · rcases hbc with hbc | ⟨hbc, -⟩
          · exact Or.inl (Nat.lt_trans hab hbc)
          · exact Or.inl (by omega)
        · rcases hbc with hbc | ⟨hbc, hbc'⟩
          · exact Or.inl (by omega)
          · exact Or.inr ⟨by omega, ih bs cs hab' hbc'⟩

theorem dtLeB_trans (a b c : DateTime) (h1 : dtLeB a b = true)
    (h2 : dtLeB b c = true) : dtLeB a c = true :=
  lexLe_trans _ _ _ h1 h2

theorem dtLeB_false_of_eq (a b : DateTime) (h : dtLeB a b = false) : a ≠ b := by
  intro heq
  subst heq
  rw [dtLeB_refl] at h
  cases h

theorem dtLeB_of_not (a b : DateTime) (h : dtLeB a b = false) : dtLeB b a = true := by
  rcases dtLeB_total a b with h' | h'
  · rw [h'] at h; cases h
  · exact h'

theorem insertByDate_perm (x : String × DateTime) :
    ∀ l, List.Perm (insertByDate x l) (x :: l) := by
  intro l
  induction l with
  | nil => exact List.Perm.refl _
  | cons y ys ih =>
    cases h : dtLeB x.2 y.2 with
    | true => simp [insertByDate, h]
    | false =>
      simp only [insertByDate, h, Bool.false_eq_true, if_false]
      exact List.Perm.trans (List.Perm.cons y ih) (List.Perm.swap x y ys)

theorem sortByDate_perm : ∀ l, List.Perm (sortByDate l) l := by
  intro l
  induction l with
  | nil => exact List.Perm.refl _
  | cons x xs ih =>
    exact List.Perm.trans (insertByDate_perm x (sortByDate xs)) (List.Perm.cons x ih)

theorem insertByDate_pairwise (x : String × DateTime) :
    ∀ l, List.Pairwise (fun a b => dtLeB a.2 b.2 = true) l →
      List.Pairwise (fun a b => dtLeB a.2 b.2 = true) (insertByDate x l) := by
  intro l
  induction l with
  | nil =>
    intro _
    exact List.pairwise_singleton _ _
  | cons y ys ih =>
    intro hp
    obtain ⟨hy, hys⟩ := List.pairwise_cons.mp hp
    cases h : dtLeB x.2 y.2 with
    | true =>
      simp only [insertByDate, h, if_true]
      refine List.pairwise_cons.mpr ⟨?_, hp⟩
      intro z hz
      rcases List.mem_cons.mp hz with rfl | hz
      · exact h
      · exact dtLeB_trans _ _ _ h (hy z hz)
    | false =>
      have hyx : dtLeB y.2 x.2 = true := dtLeB_of_not _ _ h
      simp only [insertByDate, h, Bool.false_eq_true, if_false]
      refine List.pairwise_cons.mpr ⟨?_, ih hys⟩
      intro z hz
      have hz' : z = x ∨ z ∈ ys :=
        List.mem_cons.mp ((insertByDate_perm x ys).mem_iff.mp hz)
      rcases hz' with rfl | hz'
      · exact hyx
      · exact hy z hz'

theorem sortByDate_pairwise :
    ∀ l, List.Pairwise (fun a b => dtLeB a.2 b.2 = true) (sortByDate l) := by
  intro l
  induction l with
  | nil => exact List.Pairwise.nil
  | cons x xs ih => exact insertByDate_pairwise x (sortByDate xs) ih

theorem insertByDate_filter_eq (x : String × DateTime) (d : DateTime) (hx : x.2 = d) :
    ∀ l, (insertByDate x l).filter (fun p => p.2 == d) =
      x :: l.filter (fun p => p.2 == d) := by
  intro l
  induction l with
  | nil => simp [insertByDate, List.filter, hx]
  | cons y ys ih =>
    cases h : dtLeB x.2 y.2 with
    | true =>
      simp only [insertByDate, h, if_true]
      rw [List.filter_cons_of_pos (by simp [hx])]
    | false =>
      have hyne : (y.2 == d) = false := by
        have hne : x.2 ≠ y.2 := dtLeB_false_of_eq _ _ h
        have : ¬ (y.2 = d) := fun hy => hne (by rw [hx, ← hy])
        simp [this]
      simp only [insertByDate, h, Bool.false_eq_true, if_false]
      rw [List.filter_cons_of_neg (by simp [hyne]), ih,
        List.filter_cons_of_neg (by simp [hyne])]

theorem insertByDate_filter_ne (x : String × DateTime) (d : DateTime)
    (hx : ¬ x.2 = d) :
    ∀ l, (insertByDate x l).filter (fun p => p.2 == d) =
      l.filter (fun p => p.2 == d) := by
  intro l
  induction l with
  | nil =>
    have hxb : (x.2 == d) = false := by simp [hx]
    simp [insertByDate, List.filter, hxb]
  | cons y ys ih =>
    cases h : dtLeB x.2 y.2 with
    | true =>
      simp only [insertByDate, h, if_true]
      rw [List.filter_cons_of_neg (by simp [hx])]
    | false =>
      simp only [insertByDate, h, Bool.false_eq_true, if_false]
      by_cases hy : y.2 = d
      · rw [List.filter_cons_of_pos (by simp [hy]), ih,
          List.filter_cons_of_pos (by simp [hy])]
      · rw [List.filter_cons_of_neg (by simp [hy]), ih,
          List.filter_cons_of_neg (by simp [hy])]

/-- Stability: for every date value, the records resolving to that date
appear in the sorted list exactly as they appear (same paths, same order)
in the input — ties preserve the original copy order. -/
theorem sortByDate_stable (d : DateTime) :
    ∀ l, (sortByDate l).filter (fun p => p.2 == d) =
      l.filter (fun p => p.2 == d) := by
  intro l
  induction l with
  | nil => rfl
  | cons x xs ih =>
    by_cases hx : x.2 = d
    · rw [sortByDate, insertByDate_filter_eq x d hx, ih,
        List.filter_cons_of_pos (by simp [hx])]
    · rw [sortByDate, insertByDate_filter_ne x d hx, ih,
        List.filter_cons_of_neg (by simp [hx])]

/-! ### The rename loop follows the plan -/

theorem renameLoopAbort_eq_applyMoves (unw : List String) (target_folder : String) :
    ∀ (l : List (String × DateTime)) (fs : FS) (idx : Nat),
      renameLoopAbort unw target_folder fs idx l =
        applyMoves unw fs (renamePlanFrom target_folder idx l) := by
  intro l
  induction l with
  | nil => intro fs idx; rfl
  | cons hd tl ih =>
    intro fs idx
    obtain ⟨old_path, date⟩ := hd
    simp only [renameLoopAbort, renamePlanFrom, applyMoves]
    cases osRename unw fs old_path
        (pathJoin target_folder (newNameFor idx (basename old_path) date)) with
    | none => rfl
    | some fs' => exact ih fs' (idx + 1)

theorem renamePlanFrom_enumFrom (target_folder : String) :
    ∀ (l : List (String × DateTime)) (idx : Nat),
      renamePlanFrom target_folder idx l =
        (List.enumFrom idx l).map (fun pr =>
          (pr.2.1, pathJoin target_folder (newNameFor pr.1 (basename pr.2.1)
            pr.2.2))) := by
  intro l
  induction l with
  | nil => intro idx; rfl
  | cons hd tl ih =>
    intro idx
    obtain ⟨old_path, date⟩ := hd
    simp only [renamePlanFrom, List.enumFrom, List.map]
    rw [ih]

/-! ## Claim C7 -/

/-- C7: the class-based rename pass stable-sorts the collected records
ascending by resolved date (the sorted list is a permutation, pairwise
ordered, and for each date value the tied records keep their original
copy order), then executes exactly the move plan that pairs the k-th
sorted record with the dense 1-based sequence index k and the final name
`<sequence, 4 digits zero-padded>_<timeString><extension of the current
name>`, where the time string is the `\d{8}_\d{6}` group re-extracted
from the current name when present and the resolved date formatted as
`%Y%m%d_%H%M%S` otherwise. -/
theorem c7_rename_pass (unw : List String) (target_folder : String) (fs : FS)
    (image_files : List String) (dated : List (String × DateTime))
    (hdated : datesOfAbort fs image_files = some dated) :
    List.Perm (sortByDate dated) dated ∧
      List.Pairwise (fun a b => dtLeB a.2 b.2 = true) (sortByDate dated) ∧
      (∀ d, (sortByDate dated).filter (fun p => p.2 == d) =
        dated.filter (fun p => p.2 == d)) ∧
      Processor.rename_images unw target_folder fs image_files =
        applyMoves unw fs (renamePlanFrom target_folder 1 (sortByDate dated)) ∧
      renamePlanFrom target_folder 1 (sortByDate dated) =
        (List.enumFrom 1 (sortByDate dated)).map (fun pr =>
          (pr.2.1, pathJoin target_folder (newNameFor pr.1 (basename pr.2.1)
            pr.2.2))) ∧
      (∀ idx old_name date, newNameFor idx old_name date =
        padNat4 idx ++ "_" ++ get_time_string old_name date ++
          (splitext old_name).2) := by
  refine ⟨sortByDate_perm dated, sortByDate_pairwise dated,
    fun d => sortByDate_stable d dated, ?_,
    renamePlanFrom_enumFrom target_folder (sortByDate dated) 1,
    fun _ _ _ => rfl⟩
  simp [Processor.rename_images, hdated, renameLoopAbort_eq_applyMoves]

theorem c7_witness :
    datesOfAbort fsRen ["t/x.jpg", "t/y.jpg"] =
        some [("t/x.jpg", ⟨2021, 1, 1, 0, 0, 0⟩), ("t/y.jpg", ⟨2022, 2, 2, 0, 0, 0⟩)] ∧
      List.Perm
        (sortByDate [("t/x.jpg", ⟨2021, 1, 1, 0, 0, 0⟩),
          ("t/y.jpg", ⟨2022, 2, 2, 0, 0, 0⟩)])
        [("t/x.jpg", ⟨2021, 1, 1, 0, 0, 0⟩), ("t/y.jpg", ⟨2022, 2, 2, 0, 0, 0⟩)] :=
  ⟨by decide,
    (c7_rename_pass [] "t" fsRen ["t/x.jpg", "t/y.jpg"]
      [("t/x.jpg", ⟨2021, 1, 1, 0, 0, 0⟩), ("t/y.jpg", ⟨2022, 2, 2, 0, 0, 0⟩)]
      (by decide)).1⟩

end ImageBatch

